import Mathlib

/-!
Verification of the RCA query-compilation core of the tesseract repository
(`src/tesseract-core/src/sql/rca.rs`).

The `calculate` function of the repository builds a ClickHouse SQL statement that
computes a Revealed Comparative Advantage index `(a/b)/(c/d)` from two base
scans (`a` and `b`), deriving `c` from `a` and `d` from `b` via an
array-based pivot/melt rewrite.  The shallow embedding below translates the
body of `calculate` definition by definition (each Rust `let` binding
becomes a Lean `def` with the same name), keeping the string-assembly
faithful to the source.

The descriptor types (`TableSql`, `CutSql`, `DrilldownSql`, `MeasureSql`,
`RcaSql`, `LevelColumn`, `Table`) and the collaborator `primary_agg` are
declared in repository files that are not part of the analysed sources
(`sql/mod.rs`, `sql/primary_agg.rs`); they are modelled from the data-model
section of the spec and from their usage in `rca.rs` (including its test
module, which constructs all of them literally).  `primary_agg` is kept
fully abstract: `calculate` takes it as a function parameter, exactly
matching the treatment the spec gives it as an opaque collaborator.
-/

namespace Rca

/-- Modelled from the spec (§3) and the constructor usage in the test
module of `rca.rs`: a physical source relation — name, optional schema, optional primary
key column. -/
structure Table where
  name : String
  schema : Option String
  primary_key : Option String
deriving DecidableEq

/-- Modelled from the spec (§3) and the test module of `rca.rs`: one column
pair inside a dimension level — a key column and an optional name column. -/
structure LevelColumn where
  key_column : String
  name_column : Option String
deriving DecidableEq

/-- Modelled from the spec (§3) and the test module of `rca.rs`: a dimension
join descriptor with its ordered hierarchy levels. -/
structure DrilldownSql where
  foreign_key : String
  primary_key : String
  table : Table
  level_columns : List LevelColumn
  property_columns : List String
deriving DecidableEq

/-- Modelled from the spec (§3) and the commented-out constructor usage in
`rca.rs`: a filter predicate descriptor.  The RCA core only inspects the
target `column`; the member values are opaque payload. -/
structure CutSql where
  column : String
  members : List String
deriving DecidableEq

/-- Modelled from the spec (§3) and the test module of `rca.rs`: an
aggregator applied to a source column. -/
structure MeasureSql where
  aggregator : String
  column : String
deriving DecidableEq

/-- Modelled from the spec (§3) and the test module of `rca.rs`: the RCA
configuration — the two designated drill dimensions and the RCA measure. -/
structure RcaSql where
  drill_1 : List DrilldownSql
  drill_2 : List DrilldownSql
  mea : MeasureSql
deriving DecidableEq

/-- Modelled from the spec (§3) and the test module of `rca.rs`: the fact
table descriptor handed to the compiler. -/
structure TableSql where
  name : String
  primary_key : Option String
deriving DecidableEq

/-- Modelled from the spec: `DrilldownSql::col_string` (declared in the
file `sql/mod.rs` of the repository, outside the analysed sources) renders
the grouping columns of a drilldown — per level the key column followed by
its name column when present, comma-joined, in hierarchy order. -/
def DrilldownSql.col_string (d : DrilldownSql) : String :=
  String.intercalate ", "
    (d.level_columns.flatMap (fun l =>
      match l.name_column with
      | some n => [l.key_column, n]
      | none => [l.key_column]))

/-- Models the Rust standard `str::replace` (used by `calculate` at lines 135-136 and
245-246 of `rca.rs`): replace every non-overlapping occurrence of `pat`,
scanning left to right.  Fuel-indexed so the recursion is structural; with
fuel `≥` the length of the string the fuel never runs out. -/
def replaceAux (pat rep : List Char) : Nat → List Char → List Char
  | 0, s => s
  | _ + 1, [] => []
  | n + 1, c :: cs =>
    if pat ≠ [] ∧ pat.isPrefixOf (c :: cs) then
      rep ++ replaceAux pat rep n (List.drop pat.length (c :: cs))
    else
      c :: replaceAux pat rep n cs

/-- Models the Rust standard `str::replace`: see `replaceAux`. -/
def strReplace (s pat rep : String) : String :=
  String.mk (replaceAux pat.data rep.data s.data.length s.data)

/-- The abstract type of the external `primary_agg` collaborator
(`sql/primary_agg.rs`, outside the analysed sources): per the spec it maps
`(table, cuts, drilldowns, measures)` to SQL text plus a grouping-column
string, and the RCA core treats it as opaque. -/
def PrimaryAgg : Type :=
  TableSql → List CutSql → List DrilldownSql → List MeasureSql → String × String

/-! ### Translation of `calculate` (`rca.rs` lines 50-250)

Each Rust local binding becomes one Lean definition carrying the same name as in the source,
parameterised by the inputs it reads. -/

/-- `rca.rs` lines 63-69: `a_drills = drills ++ rca.drill_1 ++ rca.drill_2`. -/
def a_drills (drills : List DrilldownSql) (rca : RcaSql) : List DrilldownSql :=
  drills ++ rca.drill_1 ++ rca.drill_2

/-- `rca.rs` lines 64, 71: `b_drills = drills ++ rca.drill_2`. -/
def b_drills (drills : List DrilldownSql) (rca : RcaSql) : List DrilldownSql :=
  drills ++ rca.drill_2

/-- `rca.rs` lines 65, 73: `c_drills = drills ++ rca.drill_1`. -/
def c_drills (drills : List DrilldownSql) (rca : RcaSql) : List DrilldownSql :=
  drills ++ rca.drill_1

/-- `rca.rs` line 66: `d_drills = drills`. -/
def d_drills (drills : List DrilldownSql) : List DrilldownSql :=
  drills

/-- `rca.rs` lines 81-85: the RCA measure is prepended to the
caller-supplied measure list. -/
def all_meas (meas : List MeasureSql) (rca : RcaSql) : List MeasureSql :=
  rca.mea :: meas

/-- `rca.rs` lines 97-99: key columns of every `drill_2` level. -/
def ac_drill_keys_blacklist (rca : RcaSql) : List String :=
  rca.drill_2.flatMap (fun d => d.level_columns.map (fun l => l.key_column))

/-- `rca.rs` lines 101-103: key columns of every `drill_1` and `drill_2`
level (`chain` = list append). -/
def bd_drill_keys_blacklist (rca : RcaSql) : List String :=
  (rca.drill_1 ++ rca.drill_2).flatMap (fun d => d.level_columns.map (fun l => l.key_column))

/-- `rca.rs` lines 105-110: cuts kept for the `(a,c)` path — those whose
column is found nowhere in the `ac` blacklist. -/
def ac_cuts (cuts : List CutSql) (rca : RcaSql) : List CutSql :=
  cuts.filter (fun cut =>
    ((ac_drill_keys_blacklist rca).find? (fun k => k == cut.column)).isNone)

/-- `rca.rs` lines 112-117: cuts kept for the `(b,d)` path — those whose
column is found nowhere in the `bd` blacklist. -/
def bd_cuts (cuts : List CutSql) (rca : RcaSql) : List CutSql :=
  cuts.filter (fun cut =>
    ((bd_drill_keys_blacklist rca).find? (fun k => k == cut.column)).isNone)

/-- `rca.rs` lines 129, 135: the `a` sub-aggregate SQL — first
`primary_agg` call, with the position-0 output column `final_m0` renamed
to `a`. -/
def a_sql (pag : PrimaryAgg) (table : TableSql) (cuts : List CutSql)
    (drills : List DrilldownSql) (meas : List MeasureSql) (rca : RcaSql) : String :=
  strReplace (pag table (ac_cuts cuts rca) (a_drills drills rca) (all_meas meas rca)).1
    "final_m0" "a"

/-- `rca.rs` line 129: the `a`-side grouping-column string returned by the
first `primary_agg` call. -/
def a_final_drills (pag : PrimaryAgg) (table : TableSql) (cuts : List CutSql)
    (drills : List DrilldownSql) (meas : List MeasureSql) (rca : RcaSql) : String :=
  (pag table (ac_cuts cuts rca) (a_drills drills rca) (all_meas meas rca)).2

/-- `rca.rs` lines 130, 136: the `b` sub-aggregate SQL — second
`primary_agg` call, with `final_m0` renamed to `b`. -/
def b_sql (pag : PrimaryAgg) (table : TableSql) (cuts : List CutSql)
    (drills : List DrilldownSql) (meas : List MeasureSql) (rca : RcaSql) : String :=
  strReplace (pag table (bd_cuts cuts rca) (b_drills drills rca) (all_meas meas rca)).1
    "final_m0" "b"

/-- `rca.rs` line 130: the `b`-side grouping-column string returned by the
second `primary_agg` call. -/
def b_final_drills (pag : PrimaryAgg) (table : TableSql) (cuts : List CutSql)
    (drills : List DrilldownSql) (meas : List MeasureSql) (rca : RcaSql) : String :=
  (pag table (bd_cuts cuts rca) (b_drills drills rca) (all_meas meas rca)).2

/-- `rca.rs` lines 142-150: `groupArray` clauses for every `drill_2`
key/name column. -/
def group_array_rca_drill_2 (rca : RcaSql) : String :=
  String.intercalate ", "
    (rca.drill_2.flatMap (fun d => d.level_columns.map (fun l =>
      match l.name_column with
      | some name_col =>
          "groupArray(" ++ l.key_column ++ ") as " ++ l.key_column ++ "_s, groupArray("
            ++ name_col ++ ") as " ++ name_col ++ "_s"
      | none => "groupArray(" ++ l.key_column ++ ") as " ++ l.key_column ++ "_s")))

/-- `rca.rs` lines 152-160: `Array Join` re-materialisation clauses for the
`drill_2` key/name columns. -/
def join_array_rca_drill_2 (rca : RcaSql) : String :=
  String.intercalate ", "
    (rca.drill_2.flatMap (fun d => d.level_columns.map (fun l =>
      match l.name_column with
      | some name_col =>
          l.key_column ++ "_s as " ++ l.key_column ++ ", " ++ name_col ++ "_s as " ++ name_col
      | none => l.key_column ++ "_s as " ++ l.key_column)))

/-- `rca.rs` lines 163-166: the `c` grouping columns — `c_drills` with every
drilldown contained in `rca.drill_2` removed, rendered as a column string. -/
def c_drills_minus_rca_drill_2 (drills : List DrilldownSql) (rca : RcaSql) : String :=
  String.intercalate ", "
    (((c_drills drills rca).filter (fun d => !(rca.drill_2.contains d))).map
      DrilldownSql.col_string)

/-- `rca.rs` lines 168-171: the `d` grouping columns — `d_drills` with every
drilldown contained in `rca.drill_2` removed, rendered as a column string. -/
def d_drills_minus_rca_drill_2 (drills : List DrilldownSql) (rca : RcaSql) : String :=
  String.intercalate ", "
    (((d_drills drills).filter (fun d => !(rca.drill_2.contains d))).map
      DrilldownSql.col_string)

/-- `rca.rs` lines 174-176: the `a` drill columns as a string. -/
def a_drills_str (drills : List DrilldownSql) (rca : RcaSql) : String :=
  String.intercalate ", " ((a_drills drills rca).map DrilldownSql.col_string)

/-- `rca.rs` lines 178-180: the `b` drill columns as a string. -/
def b_drills_str (drills : List DrilldownSql) (rca : RcaSql) : String :=
  String.intercalate ", " ((b_drills drills rca).map DrilldownSql.col_string)

/-- `rca.rs` lines 184-193: the `(a,c)` derivation — pivot `a` by the `c`
grouping columns (collecting `drill_2` and the `a` measure into arrays,
summing `a` into `c`) and melt back with `Array Join`. -/
def ac_sql (pag : PrimaryAgg) (table : TableSql) (cuts : List CutSql)
    (drills : List DrilldownSql) (meas : List MeasureSql) (rca : RcaSql) : String :=
  "select " ++ a_drills_str drills rca ++ ", a, c from (select "
    ++ c_drills_minus_rca_drill_2 drills rca ++ ", " ++ group_array_rca_drill_2 rca
    ++ ", groupArray(a) as a_s, sum(a) as c from ("
    ++ a_sql pag table cuts drills meas rca ++ ") group by "
    ++ c_drills_minus_rca_drill_2 drills rca ++ ") Array Join "
    ++ join_array_rca_drill_2 rca ++ ", a_s as a"

/-- `rca.rs` lines 197-216: the `(b,d)` derivation; when `d_drills` is empty
the branch at lines 197-204 emits the inner aggregation with no `group by`
clause at all. -/
def bd_sql (pag : PrimaryAgg) (table : TableSql) (cuts : List CutSql)
    (drills : List DrilldownSql) (meas : List MeasureSql) (rca : RcaSql) : String :=
  if (d_drills drills).isEmpty then
    "select " ++ b_drills_str drills rca
      ++ ", b, d from (select groupArray(b) as b_s, sum(b) as d from ("
      ++ b_sql pag table cuts drills meas rca ++ ")) Array Join "
      ++ join_array_rca_drill_2 rca ++ ", b_s as b"
  else
    "select " ++ b_drills_str drills rca ++ ", b, d from (select "
      ++ d_drills_minus_rca_drill_2 drills rca ++ ", " ++ group_array_rca_drill_2 rca
      ++ ", groupArray(b) as b_s, sum(b) as d from ("
      ++ b_sql pag table cuts drills meas rca ++ ") group by "
      ++ d_drills_minus_rca_drill_2 drills rca ++ ") Array Join "
      ++ join_array_rca_drill_2 rca ++ ", b_s as b"

/-- `rca.rs` lines 222-226: inner join of the two derived sets `using` the
`b`-side grouping-column string. -/
def joined_sql (pag : PrimaryAgg) (table : TableSql) (cuts : List CutSql)
    (drills : List DrilldownSql) (meas : List MeasureSql) (rca : RcaSql) : String :=
  "select * from (" ++ ac_sql pag table cuts drills meas rca ++ ") all inner join ("
    ++ bd_sql pag table cuts drills meas rca ++ ") using "
    ++ b_final_drills pag table cuts drills meas rca

/-- `rca.rs` lines 230-234: the passthrough measure columns `m1, …, mn`, or
the empty string when the caller supplied no measures. -/
def final_ext_meas (meas : List MeasureSql) : String :=
  if !meas.isEmpty then
    ", " ++ String.intercalate ", " ((List.range' 1 meas.length).map (fun i => "m" ++ toString i))
  else
    ""

/-- `rca.rs` lines 236-240: the outer projection — grouping columns, the RCA
ratio, the passthrough measures — before the two text patches. -/
def pre_patch_sql (pag : PrimaryAgg) (table : TableSql) (cuts : List CutSql)
    (drills : List DrilldownSql) (meas : List MeasureSql) (rca : RcaSql) : String :=
  "select " ++ a_final_drills pag table cuts drills meas rca
    ++ ", ((a/b) / (c/d)) as rca" ++ final_ext_meas meas ++ " from ("
    ++ joined_sql pag table cuts drills meas rca ++ ")"

/-- `rca.rs` lines 50-250, entry point: assemble the final SQL, apply the two
"SPECIAL CASE" text patches of lines 245-246, and return it with the
`a`-side grouping-column string. -/
def calculate (pag : PrimaryAgg) (table : TableSql) (cuts : List CutSql)
    (drills : List DrilldownSql) (meas : List MeasureSql) (rca : RcaSql) : String × String :=
  (strReplace (strReplace (pre_patch_sql pag table cuts drills meas rca)
      "select , " "select ") "group by )" ")",
   a_final_drills pag table cuts drills meas rca)

/-! ### Semantic model of aggregation (for the refinement claim)

Modelled from the spec (§4.4, §8): SQL execution is outside the analysed
sources, so the meaning of a grouped scan is modelled relationally.  A fact
row assigns a value to every column name and carries the value of the RCA
measure; a scan filtered by cuts and grouped by a column list sums the measure
within each group.  The `c` and `d` of the two-scan decomposition are the sums of
the finer `a`- and `b`-groups inside each coarser group (the meaning of the
`groupArray`/`sum`/`Array Join` pivot of `rca.rs` lines 184-216), and the
four-scan baseline scans each of `a`, `b`, `c`, `d` directly. -/

/-- Modelled from the spec: one fact-table row — a valuation of column names
plus the value of the RCA measure on that row. -/
structure Row where
  val : String → String
  mea : ℚ

/-- Modelled from the spec: a row passes a cut list when, for every cut, the
value the row takes in the column of the cut is among the members of the cut. -/
def passesCuts (cuts : List CutSql) (r : Row) : Bool :=
  cuts.all (fun c => c.members.contains (r.val c.column))

/-- The grouping columns contributed by a drilldown list: per level the key
column followed by its name column when present, in order (the columns of
`DrilldownSql.col_string`). -/
def drillCols (ds : List DrilldownSql) : List String :=
  ds.flatMap (fun d => d.level_columns.flatMap (fun l =>
    match l.name_column with
    | some n => [l.key_column, n]
    | none => [l.key_column]))

/-- The key columns of a drilldown list (the columns the cut blacklists of
`rca.rs` lines 97-103 are built from). -/
def drillKeyCols (ds : List DrilldownSql) : List String :=
  ds.flatMap (fun d => d.level_columns.map (fun l => l.key_column))

/-- The group key of a valuation under a column list. -/
def keyAt (cols : List String) (v : String → String) : List String :=
  cols.map v

/-- The rows surviving a cut list. -/
def liveRows (cuts : List CutSql) (rows : List Row) : List Row :=
  rows.filter (passesCuts cuts)

/-- Modelled from the spec: the value of a grouped, cut-filtered scan at a
given group key — the sum of the measure over the matching rows. -/
def aggVal (cols : List String) (cuts : List CutSql) (rows : List Row)
    (k : List String) : ℚ :=
  (((liveRows cuts rows).filter (fun r => keyAt cols r.val == k)).map Row.mea).sum

/-- The distinct group keys realized by a grouped, cut-filtered scan. -/
def realizedKeys (cols : List String) (cuts : List CutSql) (rows : List Row) :
    List (List String) :=
  ((liveRows cuts rows).map (fun r => keyAt cols r.val)).dedup

/-- Position of the first occurrence of a column name in a column list. -/
def firstPos (cols : List String) (c : String) : Nat :=
  match cols with
  | [] => 0
  | c0 :: rest => if c0 = c then 0 else firstPos rest c + 1

/-- Project a fine group key onto a coarse column list by name lookup. -/
def projKey (fineCols coarseCols : List String) (k : List String) : List String :=
  coarseCols.map (fun c => (k.get? (firstPos fineCols c)).getD "")

/-- Modelled from the spec (§4.4): the derived coarse aggregate — group the
result rows of the fine scan by the coarse columns and sum the fine aggregate
values within each coarse group (the `sum(a) as c` / `sum(b) as d` of the
pivot). -/
def derivedVal (fineCols coarseCols : List String) (cuts : List CutSql)
    (rows : List Row) (kc : List String) : ℚ :=
  (((realizedKeys fineCols cuts rows).filter
      (fun k => projKey fineCols coarseCols k == kc)).map
    (aggVal fineCols cuts rows)).sum

/-- Modelled from the spec: the RCA value of the compiled two-scan
decomposition at a dimension point `v` — `a` and `b` scanned with their
filtered cut lists, `c` derived from `a` over the `c` grouping columns of
`rca.rs` lines 163-166, `d` derived from `b` over the `d` grouping columns
of lines 168-171 (an empty column list being the no-`group by` branch of
lines 197-204). -/
def twoScanRca (cuts : List CutSql) (drills : List DrilldownSql) (rca : RcaSql)
    (rows : List Row) (v : String → String) : ℚ :=
  let aC := drillCols (a_drills drills rca)
  let bC := drillCols (b_drills drills rca)
  let cM := drillCols ((c_drills drills rca).filter (fun d => !(rca.drill_2.contains d)))
  let dM := drillCols ((d_drills drills).filter (fun d => !(rca.drill_2.contains d)))
  let aV := aggVal aC (ac_cuts cuts rca) rows (keyAt aC v)
  let bV := aggVal bC (bd_cuts cuts rca) rows (keyAt bC v)
  let cV := derivedVal aC cM (ac_cuts cuts rca) rows (keyAt cM v)
  let dV := derivedVal bC dM (bd_cuts cuts rca) rows (keyAt dM v)
  (aV / bV) / (cV / dV)

/-- Modelled from the spec (§8): the unoptimized baseline — four independent
single-purpose scans of `a`, `b`, `c`, `d`, each grouped by its own drill
list and filtered by the full caller-supplied cut list. -/
def fourScanRca (cuts : List CutSql) (drills : List DrilldownSql) (rca : RcaSql)
    (rows : List Row) (v : String → String) : ℚ :=
  let aC := drillCols (a_drills drills rca)
  let bC := drillCols (b_drills drills rca)
  let cC := drillCols (c_drills drills rca)
  let dC := drillCols (d_drills drills)
  (aggVal aC cuts rows (keyAt aC v) / aggVal bC cuts rows (keyAt bC v)) /
    (aggVal cC cuts rows (keyAt cC v) / aggVal dC cuts rows (keyAt dC v))

/-! ### Shared fixtures (concrete descriptors, used by witnesses and
counterexamples; the drilldowns mirror the test module of `rca.rs`) -/

/-- A one-level date drilldown (key column `year`), as in the test module. -/
def yearDrill : DrilldownSql :=
  ⟨"date_id", "date_id", ⟨"sales", none, none⟩, [⟨"year", none⟩], []⟩

/-- A one-level product drilldown (key column `prod`). -/
def productDrill : DrilldownSql :=
  ⟨"product_id", "product_id", ⟨"dim_products", none, none⟩, [⟨"prod", none⟩], []⟩

/-- The fact table of the test module. -/
def exTable : TableSql :=
  ⟨"sales", some "product_id"⟩

/-- The RCA measure of the test module. -/
def exMea : MeasureSql :=
  ⟨"sum", "quantity"⟩

/-- A deterministic stand-in for the opaque `primary_agg` collaborator, as
the spec prescribes for isolating the RCA core (§9): fixed SQL text plus the
comma-joined drill columns as the grouping-column string. -/
def pag_stub : PrimaryAgg :=
  fun table _cuts drills _meas =>
    ("scan(" ++ table.name ++ ")",
     String.intercalate ", " (drills.map DrilldownSql.col_string))

/-- A well-formed RCA configuration: `drill_1` = the date dimension,
`drill_2` = the product dimension. -/
def exRca : RcaSql :=
  ⟨[yearDrill], [productDrill], exMea⟩

/-- An RCA configuration violating the disjointness invariant:
`drill_1 = drill_2 = [yearDrill]`. -/
def badRca : RcaSql :=
  ⟨[yearDrill], [yearDrill], exMea⟩

/-- An RCA configuration with both drill lists empty. -/
def emptyRca : RcaSql :=
  ⟨[], [], exMea⟩

/-- A fact row valued on the `prod` and `year` columns. -/
def exRow (p y : String) (m : ℚ) : Row :=
  ⟨fun c => if c = "prod" then p else if c = "year" then y else "", m⟩

/-- Four fact rows over two products and two years. -/
def exRows : List Row :=
  [exRow "1" "2000" 1, exRow "1" "2001" 1, exRow "2" "2000" 1, exRow "2" "2001" 3]

/-- The dimension point (product 1, year 2000). -/
def exV : String → String :=
  fun c => if c = "prod" then "1" else if c = "year" then "2000" else ""

/-- An external cut (on a column of neither RCA dimension); every `exRow`
values `region` as the empty string, so this cut keeps all example rows. -/
def exCut : CutSql :=
  ⟨"region", [""]⟩

/-- A cut on the `drill_1` key column `year`. -/
def yearCut : CutSql :=
  ⟨"year", ["2000"]⟩

/-! ### Helper lemmas -/

lemma drillKeyCols_append (l1 l2 : List DrilldownSql) :
    drillKeyCols (l1 ++ l2) = drillKeyCols l1 ++ drillKeyCols l2 :=
  List.flatMap_append l1 l2 _

lemma drillCols_append (l1 l2 : List DrilldownSql) :
    drillCols (l1 ++ l2) = drillCols l1 ++ drillCols l2 :=
  List.flatMap_append l1 l2 _

lemma ac_pred_iff (rca : RcaSql) (cut : CutSql) :
    (((ac_drill_keys_blacklist rca).find? (fun k => k == cut.column)).isNone = true)
      ↔ cut.column ∉ drillKeyCols rca.drill_2 := by
  rw [Option.isNone_iff_eq_none, List.find?_eq_none]
  constructor
  · intro h hmem
    exact absurd (beq_iff_eq.mpr rfl) (h _ hmem)
  · intro h k hk hbeq
    exact h (beq_iff_eq.mp hbeq ▸ hk)

lemma bd_pred_iff (rca : RcaSql) (cut : CutSql) :
    (((bd_drill_keys_blacklist rca).find? (fun k => k == cut.column)).isNone = true)
      ↔ cut.column ∉ drillKeyCols rca.drill_1 ∧ cut.column ∉ drillKeyCols rca.drill_2 := by
  rw [Option.isNone_iff_eq_none, List.find?_eq_none]
  have hsplit : bd_drill_keys_blacklist rca
      = drillKeyCols rca.drill_1 ++ drillKeyCols rca.drill_2 :=
    List.flatMap_append _ _ _
  rw [hsplit]
  constructor
  · intro h
    refine ⟨fun hmem => ?_, fun hmem => ?_⟩
    · exact absurd (beq_iff_eq.mpr rfl) (h _ (List.mem_append_left _ hmem))
    · exact absurd (beq_iff_eq.mpr rfl) (h _ (List.mem_append_right _ hmem))
  · intro h k hk hbeq
    rcases List.mem_append.mp hk with h1 | h2
    · exact h.1 (beq_iff_eq.mp hbeq ▸ h1)
    · exact h.2 (beq_iff_eq.mp hbeq ▸ h2)

lemma mem_ac_cuts_iff (cuts : List CutSql) (rca : RcaSql) (cut : CutSql) :
    cut ∈ ac_cuts cuts rca ↔ cut ∈ cuts ∧ cut.column ∉ drillKeyCols rca.drill_2 := by
  rw [ac_cuts, List.mem_filter, ac_pred_iff]

lemma mem_bd_cuts_iff (cuts : List CutSql) (rca : RcaSql) (cut : CutSql) :
    cut ∈ bd_cuts cuts rca
      ↔ cut ∈ cuts ∧ cut.column ∉ drillKeyCols rca.drill_1
          ∧ cut.column ∉ drillKeyCols rca.drill_2 := by
  rw [bd_cuts, List.mem_filter, bd_pred_iff]

lemma ac_cuts_eq_of_external (cuts : List CutSql) (rca : RcaSql)
    (h : ∀ cut ∈ cuts, cut.column ∉ drillKeyCols rca.drill_2) :
    ac_cuts cuts rca = cuts :=
  List.filter_eq_self.mpr (fun cut hc => (ac_pred_iff rca cut).mpr (h cut hc))

lemma bd_cuts_eq_of_external (cuts : List CutSql) (rca : RcaSql)
    (h : ∀ cut ∈ cuts, cut.column ∉ drillKeyCols rca.drill_1
        ∧ cut.column ∉ drillKeyCols rca.drill_2) :
    bd_cuts cuts rca = cuts :=
  List.filter_eq_self.mpr (fun cut hc => (bd_pred_iff rca cut).mpr (h cut hc))

lemma filter_sublist_filter_of_imp {α : Type} (p q : α → Bool) (l : List α)
    (h : ∀ a ∈ l, p a = true → q a = true) :
    (l.filter p).Sublist (l.filter q) := by
  induction l with
  | nil => simp
  | cons a t ih =>
    have ht : ∀ b ∈ t, p b = true → q b = true := fun b hb => h b (List.mem_cons_of_mem a hb)
    by_cases hp : p a = true
    · have hq : q a = true := h a (List.mem_cons_self a t) hp
      simpa [List.filter_cons, hp, hq] using List.Sublist.cons₂ a (ih ht)
    · by_cases hq : q a = true
      · simpa [List.filter_cons, hp, hq] using List.Sublist.cons a (ih ht)
      · simpa [List.filter_cons, hp, hq] using ih ht

lemma sum_split_disjoint (l : List Row) (p q : Row → Bool) (g : Row → ℚ)
    (h : ∀ r ∈ l, p r = true → q r = false) :
    ((l.filter (fun r => p r || q r)).map g).sum
      = ((l.filter p).map g).sum + ((l.filter q).map g).sum := by
  induction l with
  | nil => simp
  | cons a t ih =>
    have ht : ∀ r ∈ t, p r = true → q r = false := fun r hr => h r (List.mem_cons_of_mem a hr)
    by_cases hp : p a = true
    · have hq : q a = false := h a (List.mem_cons_self a t) hp
      simp only [List.filter_cons, hp, hq, Bool.true_or, if_true, if_false,
        Bool.false_eq_true, List.map_cons, List.sum_cons, ih ht]
      ring
    · simp only [Bool.not_eq_true] at hp
      by_cases hq : q a = true
      · simp only [List.filter_cons, hp, hq, Bool.false_or, if_true, if_false,
          Bool.false_eq_true, List.map_cons, List.sum_cons, ih ht]
        ring
      · simp only [Bool.not_eq_true] at hq
        simp only [List.filter_cons, hp, hq, Bool.false_or, if_false,
          Bool.false_eq_true, ih ht]

lemma sum_fiber_mem (l : List Row) (f : Row → List String) (g : Row → ℚ)
    (K : List (List String)) (hK : K.Nodup) :
    ((K.map (fun k => ((l.filter (fun r => f r == k)).map g).sum)).sum
      = ((l.filter (fun r => K.contains (f r))).map g).sum) := by
  induction K with
  | nil =>
    simp [List.contains]
  | cons k K' ih =>
    have hnd : K'.Nodup := (List.nodup_cons.mp hK).2
    have hnotmem : k ∉ K' := (List.nodup_cons.mp hK).1
    have hcongr : l.filter (fun r => (k :: K').contains (f r))
        = l.filter (fun r => (f r == k) || K'.contains (f r)) := by
      apply List.filter_congr
      intro r _
      by_cases h : f r = k <;> simp [List.contains_cons, h]
    rw [List.map_cons, List.sum_cons, ih hnd, hcongr,
      sum_split_disjoint l (fun r => f r == k) (fun r => K'.contains (f r)) g]
    intro r _ hbeq
    have : f r = k := beq_iff_eq.mp hbeq
    subst this
    exact Bool.not_eq_true _ ▸ fun hc => hnotmem (List.elem_iff.mp hc)

lemma map_get_firstPos (cols : List String) (v : String → String) (c : String)
    (h : c ∈ cols) :
    (cols.map v).get? (firstPos cols c) = some (v c) := by
  induction cols with
  | nil => cases h
  | cons c0 rest ih =>
    by_cases h0 : c0 = c
    · subst h0
      simp [firstPos]
    · have hr : c ∈ rest := by
        rcases List.mem_cons.mp h with h1 | h1
        · exact absurd h1.symm h0
        · exact h1
      simp only [List.map_cons, firstPos, if_neg h0, List.get?_cons_succ]
      exact ih hr

lemma projKey_keyAt (fineCols coarseCols : List String) (v : String → String)
    (hsub : ∀ c ∈ coarseCols, c ∈ fineCols) :
    projKey fineCols coarseCols (keyAt fineCols v) = keyAt coarseCols v := by
  unfold projKey keyAt
  apply List.map_congr_left
  intro c hc
  rw [map_get_firstPos fineCols v c (hsub c hc)]
  rfl

lemma derivedVal_eq_aggVal (fineCols coarseCols : List String) (cuts : List CutSql)
    (rows : List Row) (kc : List String)
    (hsub : ∀ c ∈ coarseCols, c ∈ fineCols) :
    derivedVal fineCols coarseCols cuts rows kc = aggVal coarseCols cuts rows kc := by
  unfold derivedVal realizedKeys aggVal
  set l := liveRows cuts rows with hl
  set f : Row → List String := fun r => keyAt fineCols r.val with hf
  set P : List String → Bool := fun k => projKey fineCols coarseCols k == kc with hP
  have hK : ((l.map f).dedup.filter P).Nodup := (List.nodup_dedup _).filter P
  have h1 := sum_fiber_mem l f Row.mea ((l.map f).dedup.filter P) hK
  calc (((l.map f).dedup.filter P).map
          (fun k => ((l.filter (fun r => f r == k)).map Row.mea).sum)).sum
      = ((l.filter (fun r => ((l.map f).dedup.filter P).contains (f r))).map Row.mea).sum := h1
    _ = ((l.filter (fun r => keyAt coarseCols r.val == kc)).map Row.mea).sum := by
        have hfc : l.filter (fun r => ((l.map f).dedup.filter P).contains (f r))
            = l.filter (fun r => keyAt coarseCols r.val == kc) := by
          apply List.filter_congr
          intro r hr
          have hmem : f r ∈ (l.map f).dedup := List.mem_dedup.mpr (List.mem_map_of_mem f hr)
          have hproj : projKey fineCols coarseCols (f r) = keyAt coarseCols r.val :=
            projKey_keyAt fineCols coarseCols r.val hsub
          by_cases hc : (keyAt coarseCols r.val == kc) = true
          · have hPfr : P (f r) = true := by
              rw [hP]
              simpa [hproj] using hc
            have : ((l.map f).dedup.filter P).contains (f r) = true :=
              List.elem_iff.mpr (List.mem_filter.mpr ⟨hmem, hPfr⟩)
            rw [this, hc]
          · have hcf : (keyAt coarseCols r.val == kc) = false := Bool.not_eq_true _ ▸ hc
            have hPfr : P (f r) = false := by
              rw [hP]
              simpa [hproj] using hcf
            have : ((l.map f).dedup.filter P).contains (f r) = false := by
              rw [Bool.eq_false_iff]
              intro hcont
              have := (List.mem_filter.mp (List.elem_iff.mp hcont)).2
              rw [hPfr] at this
              cases this
            rw [this, hcf]
        rw [hfc]

lemma drills_filter_eq_self (ds : List DrilldownSql) (rca : RcaSql)
    (h : ∀ d ∈ ds, d ∉ rca.drill_2) :
    ds.filter (fun d => !(rca.drill_2.contains d)) = ds := by
  apply List.filter_eq_self.mpr
  intro d hd
  simpa using fun hc => h d hd (List.elem_iff.mp hc)

/-! ### Claim theorems -/

/-- C2: for every base drilldown list `D` and every `RcaSpec` with fields `drill_1`
and `drill_2`, the compiler constructs exactly the four grouping sets
`a = D ++ drill_1 ++ drill_2`, `b = D ++ drill_2`, `c = D ++ drill_1` and
`d = D`, in those concatenation orders, as a pure transformation (every
occurrence of every drilldown is kept, with multiplicities adding up, and
the input list reappears untouched as `d`). -/
theorem drilldown_composer_grouping_sets (drills : List DrilldownSql) (rca : RcaSql) :
    a_drills drills rca = drills ++ rca.drill_1 ++ rca.drill_2
    ∧ b_drills drills rca = drills ++ rca.drill_2
    ∧ c_drills drills rca = drills ++ rca.drill_1
    ∧ d_drills drills = drills
    ∧ (∀ x : DrilldownSql, (a_drills drills rca).count x
        = drills.count x + rca.drill_1.count x + rca.drill_2.count x) := by
  refine ⟨rfl, rfl, rfl, rfl, fun x => ?_⟩
  rw [a_drills, List.count_append, List.count_append]

/-- C3: the cut partitioner produces two order-preserving (sublists of the
input), non-deduplicated (count-preserving) cut lists; a cut is kept for the
`(a,c)` path iff its column is a key column of no `drill_2` level, and kept
for the `(b,d)` path iff its column is a key column of no `drill_1` and no
`drill_2` level — a pure function of the column of the cut and the two key sets.
In particular, under the disjointness invariant a cut on a `drill_1` key
column appears in the `ac` list and is absent from the `bd` list. -/
theorem cut_partitioner_spec (cuts : List CutSql) (rca : RcaSql) :
    ((ac_cuts cuts rca).Sublist cuts ∧ (bd_cuts cuts rca).Sublist cuts)
    ∧ (∀ cut : CutSql,
        (cut ∈ ac_cuts cuts rca ↔ cut ∈ cuts ∧ cut.column ∉ drillKeyCols rca.drill_2)
        ∧ (cut ∈ bd_cuts cuts rca ↔ cut ∈ cuts ∧ cut.column ∉ drillKeyCols rca.drill_1
            ∧ cut.column ∉ drillKeyCols rca.drill_2))
    ∧ (∀ cut : CutSql,
        (ac_cuts cuts rca).count cut
          = (if cut.column ∉ drillKeyCols rca.drill_2 then cuts.count cut else 0)
        ∧ (bd_cuts cuts rca).count cut
          = (if cut.column ∉ drillKeyCols rca.drill_1 ∧ cut.column ∉ drillKeyCols rca.drill_2
              then cuts.count cut else 0))
    ∧ ((∀ x ∈ drillKeyCols rca.drill_1, x ∉ drillKeyCols rca.drill_2) →
        ∀ cut ∈ cuts, cut.column ∈ drillKeyCols rca.drill_1 →
          cut ∈ ac_cuts cuts rca ∧ cut ∉ bd_cuts cuts rca) := by
  refine ⟨⟨List.filter_sublist cuts, List.filter_sublist cuts⟩,
    fun cut => ⟨mem_ac_cuts_iff cuts rca cut, mem_bd_cuts_iff cuts rca cut⟩,
    fun cut => ⟨?_, ?_⟩, ?_⟩
  · by_cases h : cut.column ∈ drillKeyCols rca.drill_2
    · rw [if_neg (fun hn => hn h)]
      apply List.count_eq_zero_of_not_mem
      intro hmem
      exact ((mem_ac_cuts_iff cuts rca cut).mp hmem).2 h
    · rw [if_pos h]
      exact List.count_filter ((ac_pred_iff rca cut).mpr h)
  · by_cases h : cut.column ∉ drillKeyCols rca.drill_1 ∧ cut.column ∉ drillKeyCols rca.drill_2
    · rw [if_pos h]
      exact List.count_filter ((bd_pred_iff rca cut).mpr h)
    · rw [if_neg h]
      apply List.count_eq_zero_of_not_mem
      intro hmem
      exact h (((mem_bd_cuts_iff cuts rca cut).mp hmem).2)
  · intro hdisj cut hcut hd1
    have hnotd2 : cut.column ∉ drillKeyCols rca.drill_2 := hdisj cut.column hd1
    refine ⟨(mem_ac_cuts_iff cuts rca cut).mpr ⟨hcut, hnotd2⟩, fun hmem => ?_⟩
    exact ((mem_bd_cuts_iff cuts rca cut).mp hmem).2.1 hd1

/-- C3 witness: with the configuration of the test module (`drill_1` = date,
`drill_2` = product) and one cut on the `year` column, the cut appears in
the `ac` cut list and not in the `bd` cut list. -/
theorem cut_partitioner_spec_witness :
    (∀ x ∈ drillKeyCols exRca.drill_1, x ∉ drillKeyCols exRca.drill_2)
    ∧ yearCut ∈ [yearCut] ∧ yearCut.column ∈ drillKeyCols exRca.drill_1
    ∧ yearCut ∈ ac_cuts [yearCut] exRca ∧ yearCut ∉ bd_cuts [yearCut] exRca := by
  have h := (cut_partitioner_spec [yearCut] exRca).2.2.2 (by decide) yearCut
    (List.mem_singleton.mpr rfl) (by decide)
  exact ⟨by decide, List.mem_singleton.mpr rfl, by decide, h.1, h.2⟩

/-- C10: the `bd`-path filtered cut list is a sub-sequence of the `ac`-path
filtered cut list — every cut kept for `(b,d)` is kept for `(a,c)` — because
the `bd` blacklist extends the `ac` blacklist. -/
theorem bd_cuts_sublist_ac_cuts (cuts : List CutSql) (rca : RcaSql) :
    (bd_cuts cuts rca).Sublist (ac_cuts cuts rca)
    ∧ ∀ cut ∈ bd_cuts cuts rca, cut ∈ ac_cuts cuts rca := by
  constructor
  · apply filter_sublist_filter_of_imp
    intro cut _ hbd
    exact (ac_pred_iff rca cut).mpr ((bd_pred_iff rca cut).mp hbd).2
  · intro cut h
    have hm := (mem_bd_cuts_iff cuts rca cut).mp h
    exact (mem_ac_cuts_iff cuts rca cut).mpr ⟨hm.1, hm.2.2⟩

/-- C10 witness: with a cut on the `year` column and an external cut, the
`bd` cut list is a sub-sequence of the `ac` cut list and the surviving
external cut is in both. -/
theorem bd_cuts_sublist_ac_cuts_witness :
    (bd_cuts [yearCut, exCut] exRca).Sublist (ac_cuts [yearCut, exCut] exRca)
    ∧ exCut ∈ bd_cuts [yearCut, exCut] exRca
    ∧ exCut ∈ ac_cuts [yearCut, exCut] exRca :=
  ⟨(bd_cuts_sublist_ac_cuts [yearCut, exCut] exRca).1, by decide,
   (bd_cuts_sublist_ac_cuts [yearCut, exCut] exRca).2 exCut (by decide)⟩

/-- C6: the assembler joins the derived `(a,c)` and `(b,d)` results with
`all inner join … using` the `b`-side grouping-column string returned by the
second `primary_agg` call; the outer projection computes
`((a/b) / (c/d)) as rca`; and the grouping-column string returned to the
caller is exactly the `a`-side grouping-column string of the first
`primary_agg` call. -/
theorem assembler_join_projection_spec (pag : PrimaryAgg) (table : TableSql)
    (cuts : List CutSql) (drills : List DrilldownSql) (meas : List MeasureSql)
    (rca : RcaSql) :
    joined_sql pag table cuts drills meas rca
      = "select * from (" ++ ac_sql pag table cuts drills meas rca
        ++ ") all inner join (" ++ bd_sql pag table cuts drills meas rca ++ ") using "
        ++ (pag table (bd_cuts cuts rca) (b_drills drills rca) (all_meas meas rca)).2
    ∧ pre_patch_sql pag table cuts drills meas rca
      = "select " ++ (pag table (ac_cuts cuts rca) (a_drills drills rca) (all_meas meas rca)).2
        ++ ", ((a/b) / (c/d)) as rca" ++ final_ext_meas meas ++ " from ("
        ++ joined_sql pag table cuts drills meas rca ++ ")"
    ∧ (calculate pag table cuts drills meas rca).2
      = (pag table (ac_cuts cuts rca) (a_drills drills rca) (all_meas meas rca)).2 :=
  ⟨rfl, rfl, rfl⟩

/-- C7: whenever the `d` grouping set is empty, the `(b,d)` derivation takes
the branch that emits the inner aggregation with no `GROUP BY` token at all
(the template below contains no grouping clause), instead of emitting an
empty grouping clause. -/
theorem d_side_empty_grouping (pag : PrimaryAgg) (table : TableSql)
    (cuts : List CutSql) (drills : List DrilldownSql) (meas : List MeasureSql)
    (rca : RcaSql) (h : d_drills drills = []) :
    bd_sql pag table cuts drills meas rca
      = "select " ++ b_drills_str drills rca
        ++ ", b, d from (select groupArray(b) as b_s, sum(b) as d from ("
        ++ b_sql pag table cuts drills meas rca ++ ")) Array Join "
        ++ join_array_rca_drill_2 rca ++ ", b_s as b" := by
  rw [bd_sql, h]
  rfl

/-- C7 witness: with an empty base drilldown list and the RCA configuration
of the test module, the emitted `(b,d)` text is the ungrouped template. -/
theorem d_side_empty_grouping_witness :
    d_drills ([] : List DrilldownSql) = []
    ∧ bd_sql pag_stub exTable [] [] [] exRca
      = "select " ++ b_drills_str [] exRca
        ++ ", b, d from (select groupArray(b) as b_s, sum(b) as d from ("
        ++ b_sql pag_stub exTable [] [] [] exRca ++ ")) Array Join "
        ++ join_array_rca_drill_2 exRca ++ ", b_s as b" :=
  ⟨rfl, d_side_empty_grouping pag_stub exTable [] [] [] exRca rfl⟩

/-- C8: both `primary_agg` calls receive the RCA measure prepended to the
caller-supplied measures (position 0 is the RCA measure, the tail is the
caller-supplied list in its original order), and the position-0 output column
`final_m0` of the `a`-side (resp. `b`-side) sub-aggregate SQL is renamed to
`a` (resp. `b`). -/
theorem rca_measure_position_spec (pag : PrimaryAgg) (table : TableSql)
    (cuts : List CutSql) (drills : List DrilldownSql) (meas : List MeasureSql)
    (rca : RcaSql) :
    all_meas meas rca = rca.mea :: meas
    ∧ (all_meas meas rca).get? 0 = some rca.mea
    ∧ (all_meas meas rca).drop 1 = meas
    ∧ a_sql pag table cuts drills meas rca
      = strReplace (pag table (ac_cuts cuts rca) (a_drills drills rca) (all_meas meas rca)).1
          "final_m0" "a"
    ∧ b_sql pag table cuts drills meas rca
      = strReplace (pag table (bd_cuts cuts rca) (b_drills drills rca) (all_meas meas rca)).1
          "final_m0" "b" :=
  ⟨rfl, rfl, rfl, rfl, rfl⟩

/-- C9: the final projection exposes, after the grouping columns, `rca`
followed by the passthrough columns `m1, …, mn` — one per caller-supplied
measure, numbered in the order supplied (position `i` of the caller-supplied list
gets name `m(i+1)`, matching its position in the measure list whose position
0 holds the consumed RCA measure) — and with an empty measure list no
passthrough columns at all.  `final_ext_meas` is a function of the
caller-supplied list alone, so the internal insertion of the RCA measure
cannot reorder it. -/
theorem passthrough_measures_spec (pag : PrimaryAgg) (table : TableSql)
    (cuts : List CutSql) (drills : List DrilldownSql) (rca : RcaSql) :
    final_ext_meas [] = ""
    ∧ (∀ meas : List MeasureSql, meas ≠ [] →
        final_ext_meas meas
          = ", " ++ String.intercalate ", "
              ((List.range' 1 meas.length).map (fun i => "m" ++ toString i)))
    ∧ (∀ m1 m2 : MeasureSql, final_ext_meas [m1, m2] = ", m1, m2")
    ∧ (∀ meas : List MeasureSql, pre_patch_sql pag table cuts drills meas rca
        = "select " ++ a_final_drills pag table cuts drills meas rca
          ++ ", ((a/b) / (c/d)) as rca" ++ final_ext_meas meas ++ " from ("
          ++ joined_sql pag table cuts drills meas rca ++ ")") := by
  refine ⟨rfl, fun meas hne => ?_, fun m1 m2 => rfl, fun meas => rfl⟩
  cases meas with
  | nil => exact absurd rfl hne
  | cons m ms => rfl

/-- C9 witness: with two caller-supplied measures the projection suffix is
exactly `, m1, m2`. -/
theorem passthrough_measures_spec_witness :
    ([exMea, exMea] : List MeasureSql) ≠ []
    ∧ final_ext_meas [exMea, exMea]
      = ", " ++ String.intercalate ", "
          ((List.range' 1 ([exMea, exMea] : List MeasureSql).length).map
            (fun i => "m" ++ toString i))
    ∧ final_ext_meas [exMea, exMea] = ", m1, m2" := by
  refine ⟨by decide, (passthrough_measures_spec pag_stub exTable [] [] exRca).2.1
    [exMea, exMea] (by decide), by decide⟩

set_option maxRecDepth 40000

/-- C4 counterexample: with every drill list empty, the assembled projection
reads `select , ((a/b) / (c/d)) as rca …` and the returned SQL differs from
the assembled SQL — the empty-grouping case is repaired by post-hoc text
substitution on the assembled string, not recognized structurally, refuting
the claim that no partially-built SQL is ever patched after assembly. -/
theorem post_hoc_patch_counterexample :
    (calculate pag_stub exTable [] [] [] emptyRca).1
      ≠ pre_patch_sql pag_stub exTable [] [] [] emptyRca := by
  decide

/-- C4 amended: no validation is performed; the returned SQL is obtained
from the fully assembled text by two post-hoc substitutions on the SQL
string — `"select , " → "select "` and `"group by )" → ")"` (the
`SPECIAL CASE` hack of `rca.rs` lines 242-246). -/
theorem post_hoc_patch_mechanism (pag : PrimaryAgg) (table : TableSql)
    (cuts : List CutSql) (drills : List DrilldownSql) (meas : List MeasureSql)
    (rca : RcaSql) :
    calculate pag table cuts drills meas rca
      = (strReplace (strReplace (pre_patch_sql pag table cuts drills meas rca)
            "select , " "select ") "group by )" ")",
         a_final_drills pag table cuts drills meas rca) :=
  rfl

/-- C5 counterexample: with `drill_1 = drill_2 = [yearDrill]` — key sets not
disjoint — `calculate` still produces an ordinary `(sql_text,
grouping_columns)` result (grouping string `"year, year"`, non-empty SQL):
no `InvalidRcaConfiguration` rejection exists in the code. -/
theorem invalid_rca_config_counterexample :
    "year" ∈ drillKeyCols badRca.drill_1
    ∧ "year" ∈ drillKeyCols badRca.drill_2
    ∧ (calculate pag_stub exTable [] [] [] badRca).2 = "year, year"
    ∧ (calculate pag_stub exTable [] [] [] badRca).1 ≠ "" := by
  refine ⟨by decide, by decide, by decide, by decide⟩

/-- C5 amended: `calculate` performs no validation of the RCA configuration:
even when the `drill_1`/`drill_2` key sets intersect or one of the lists is
empty, it runs the normal pipeline to completion and returns the assembled
`(sql_text, grouping_columns)` pair. -/
theorem calculate_total_no_validation (pag : PrimaryAgg) (table : TableSql)
    (cuts : List CutSql) (drills : List DrilldownSql) (meas : List MeasureSql)
    (rca : RcaSql)
    (_h : (∃ x, x ∈ drillKeyCols rca.drill_1 ∧ x ∈ drillKeyCols rca.drill_2)
        ∨ rca.drill_1 = [] ∨ rca.drill_2 = []) :
    calculate pag table cuts drills meas rca
      = (strReplace (strReplace (pre_patch_sql pag table cuts drills meas rca)
            "select , " "select ") "group by )" ")",
         a_final_drills pag table cuts drills meas rca) :=
  rfl

/-- C5 witness: the violating configuration `badRca` satisfies the amended
hypothesis of the amended theorem and flows through the normal pipeline. -/
theorem calculate_total_no_validation_witness :
    ((∃ x, x ∈ drillKeyCols badRca.drill_1 ∧ x ∈ drillKeyCols badRca.drill_2)
        ∨ badRca.drill_1 = [] ∨ badRca.drill_2 = [])
    ∧ calculate pag_stub exTable [] [] [] badRca
      = (strReplace (strReplace (pre_patch_sql pag_stub exTable [] [] [] badRca)
            "select , " "select ") "group by )" ")",
         a_final_drills pag_stub exTable [] [] [] badRca) :=
  ⟨Or.inl ⟨"year", by decide, by decide⟩,
   calculate_total_no_validation pag_stub exTable [] [] [] badRca
     (Or.inl ⟨"year", by decide, by decide⟩)⟩

/-- C1 counterexample: the claim as stated fails when the base drilldown
list overlaps `drill_2`.  With base list `[productDrill]`,
`drill_1 = [yearDrill]`, `drill_2 = [productDrill]` and no cuts at all (so
no cut targets any `drill_1`/`drill_2` column), the `c`/`d` derivation of
`rca.rs` lines 163-171 filters the shared drilldown out of the coarse
grouping entirely, and on four concrete rows the two-scan RCA value is
`3/2` while the four-scan baseline gives `1`. -/
theorem rca_two_scan_four_scan_counterexample :
    (∀ cut ∈ ([] : List CutSql),
        cut.column ∉ drillKeyCols (exRca.drill_1 ++ exRca.drill_2))
    ∧ twoScanRca [] [productDrill] exRca exRows exV
        ≠ fourScanRca [] [productDrill] exRca exRows exV := by
  constructor
  · simp
  · with_unfolding_all decide

/-- C1 amended: for every query in which no cut targets a `drill_1` or
`drill_2` key column, and in which neither the base drilldown list nor
`drill_1` shares a drilldown with `drill_2` (the condition the
counterexample shows is necessary), the RCA value of the compiled two-scan
decomposition — `a` and `b` scanned with the partitioned cut lists, `c`
derived from `a`, `d` derived from `b` — equals the RCA value of four
independent single-purpose scans of `a`, `b`, `c` and `d`. -/
theorem rca_two_scan_refines_four_scan (cuts : List CutSql)
    (drills : List DrilldownSql) (rca : RcaSql) (rows : List Row)
    (v : String → String)
    (hcuts : ∀ cut ∈ cuts, cut.column ∉ drillKeyCols (rca.drill_1 ++ rca.drill_2))
    (hsep : ∀ d ∈ drills ++ rca.drill_1, d ∉ rca.drill_2) :
    twoScanRca cuts drills rca rows v = fourScanRca cuts drills rca rows v := by
  have hkeys : ∀ cut ∈ cuts, cut.column ∉ drillKeyCols rca.drill_1
      ∧ cut.column ∉ drillKeyCols rca.drill_2 := by
    intro cut hc
    have hn := hcuts cut hc
    rw [drillKeyCols_append] at hn
    exact ⟨fun h1 => hn (List.mem_append_left _ h1),
           fun h2 => hn (List.mem_append_right _ h2)⟩
  have hac : ac_cuts cuts rca = cuts :=
    ac_cuts_eq_of_external cuts rca (fun cut hc => (hkeys cut hc).2)
  have hbd : bd_cuts cuts rca = cuts := bd_cuts_eq_of_external cuts rca hkeys
  have hcfil : (c_drills drills rca).filter (fun d => !(rca.drill_2.contains d))
      = c_drills drills rca :=
    drills_filter_eq_self (c_drills drills rca) rca hsep
  have hdfil : (d_drills drills).filter (fun d => !(rca.drill_2.contains d))
      = d_drills drills :=
    drills_filter_eq_self (d_drills drills) rca
      (fun d hd => hsep d (List.mem_append_left _ hd))
  have hsubc : ∀ c ∈ drillCols (c_drills drills rca), c ∈ drillCols (a_drills drills rca) := by
    intro c hc
    have hsplit : drillCols (a_drills drills rca)
        = drillCols (c_drills drills rca) ++ drillCols rca.drill_2 :=
      drillCols_append (c_drills drills rca) rca.drill_2
    rw [hsplit]
    exact List.mem_append_left _ hc
  have hsubd : ∀ c ∈ drillCols (d_drills drills), c ∈ drillCols (b_drills drills rca) := by
    intro c hc
    have hsplit : drillCols (b_drills drills rca)
        = drillCols (d_drills drills) ++ drillCols rca.drill_2 :=
      drillCols_append (d_drills drills) rca.drill_2
    rw [hsplit]
    exact List.mem_append_left _ hc
  simp only [twoScanRca, fourScanRca, hac, hbd, hcfil, hdfil]
  rw [derivedVal_eq_aggVal _ _ _ _ _ hsubc, derivedVal_eq_aggVal _ _ _ _ _ hsubd]

/-- C1 witness: a disjoint configuration (date vs product), one external cut
(on `region`, kept by both paths), four rows — the hypotheses hold and the
two-scan and four-scan RCA values coincide. -/
theorem rca_two_scan_refines_four_scan_witness :
    (∀ cut ∈ [exCut], cut.column ∉ drillKeyCols (exRca.drill_1 ++ exRca.drill_2))
    ∧ (∀ d ∈ ([] : List DrilldownSql) ++ exRca.drill_1, d ∉ exRca.drill_2)
    ∧ twoScanRca [exCut] [] exRca exRows exV = fourScanRca [exCut] [] exRca exRows exV :=
  ⟨by decide, by decide,
   rca_two_scan_refines_four_scan [exCut] [] exRca exRows exV (by decide) (by decide)⟩

end Rca
